import Mathlib

/-!
Verification of the recommendation scoring engine in `src/server.js`.

The JavaScript engine `scoreEvents(events, requestedItems)` accumulates
per-product scores in a plain object, collects purchased ids in a set,
then ranks via `Object.entries(scores).filter(...).sort(...).slice(0, requestedItems)`.

Modelling notes (JS semantics embedded faithfully):
* Event fields are `Option`-valued: a missing JSON member is `none`.
* The recency factor `Math.pow(0.5, ((now - timestamp) / 86400) / 7)` is a
  floating-point computation; the engine is therefore parameterised over the
  score ring `R` and over a recency function `rec : Option ℚ → R` applied to
  each event timestamp.  The program value of `rec (some ts)` is
  `recencyOfAge ((now - ts) / 86400)` over the reals, defined below; `rec none`
  stands for the IEEE NaN produced by a missing timestamp.
* `Object.entries` enumerates keys that are canonical array indices
  (decimal strings with value below 2 ^ 32 - 1) first, in ascending numeric
  order, and all remaining keys in insertion order (`jsEntries`).
* `Array.prototype.sort` is stable; the comparator `(a, b) => b[1] - a[1]`
  sorts by score descending (`sortDesc`, a stable insertion sort).
* `Array.prototype.slice(0, limit)` with a negative `limit` drops the last
  `|limit|` elements instead of returning the empty array (`jsSlice`).
* Plain-object property reads (`EVENT_WEIGHTS[name]`, `scores[id]`) walk the
  prototype chain: for a name or id in `objectPrototypeProps` the program
  reads an inherited member and its arithmetic degenerates to `NaN` or
  string concatenation.  The ring-valued model is faithful for names and
  ids outside `objectPrototypeProps` (`weightTableRead` records the raw
  read), and theorems that depend on the default weight or on fresh-id
  accumulation carry that hypothesis.
-/

def DEFAULT_WEIGHT : Int := 1

def RECENCY_HALF_LIFE_DAYS : Nat := 7

def EVENT_WEIGHTS : List (String × Int) :=
  [("ProductAddToCart", 10), ("ProductDetailsView", 5), ("Purchase", -100),
   ("MyCustomEvent", 15), ("MyCustomWishlistEvent", 20)]

/-- An event as consumed by `scoreEvents`.  `dataProducts` holds the ids of
`event.data.products` sub-records; `dataId` is `event.data.id`.  A `none`
field models an absent (undefined) JSON member. -/
structure Event where
  name : Option String
  timestamp : Option ℚ
  productIds : Option (List String)
  dataProducts : Option (List String)
  dataId : Option String
deriving DecidableEq

/-- Models `event.productIds || (event.data?.products?.map(p => p.id)) || (event.data?.id ? [event.data.id] : [])`.
A present array is truthy in JS even when empty, so a present source wins
regardless of emptiness; the third tier tests the truthiness of the id string
itself, so an empty string yields the empty list. -/
def extractIds (e : Event) : List String :=
  match e.productIds with
  | some ids => ids
  | none =>
    match e.dataProducts with
    | some prods => prods
    | none =>
      match e.dataId with
      | some i => if i = "" then [] else [i]
      | none => []

/-- Own property names of `Object.prototype`, inherited by every object
literal: a plain-object property read for one of these names yields the
inherited member instead of `undefined`. -/
def objectPrototypeProps : List String :=
  ["constructor", "hasOwnProperty", "isPrototypeOf", "propertyIsEnumerable",
   "toLocaleString", "toString", "valueOf", "__defineGetter__",
   "__defineSetter__", "__lookupGetter__", "__lookupSetter__", "__proto__"]

/-- Outcome of the JS property read `EVENT_WEIGHTS[event.name]`: an own key
yields its numeric weight; an `Object.prototype` property name yields the
inherited member, which is non-nullish (so `?? DEFAULT_WEIGHT` does NOT
apply) and non-numeric (so the weight arithmetic produces `NaN`); any other
name yields `undefined` and the default applies. -/
inductive WeightRead where
  | own (w : Int)
  | inherited
  | undef
deriving DecidableEq

/-- The JS property read `EVENT_WEIGHTS[event.name]`, prototype chain
included; an absent name indexes the table with the string "undefined",
which is neither an own key nor a prototype property. -/
def weightTableRead (name : Option String) : WeightRead :=
  match name with
  | some s =>
    match EVENT_WEIGHTS.lookup s with
    | some w => WeightRead.own w
    | none =>
      if s ∈ objectPrototypeProps then WeightRead.inherited
      else WeightRead.undef
  | none => WeightRead.undef

/-- The numeric weight used by the ring-valued engine model.  It agrees
with `EVENT_WEIGHTS[event.name] ?? DEFAULT_WEIGHT` whenever the read does
not hit an inherited `Object.prototype` member; on `WeightRead.inherited`
the JS value is a function, the `??` fallback does not apply, and the
multiplication degenerates to `NaN`, which the real-valued score model
cannot represent — theorems about unknown-name scoring therefore exclude
`objectPrototypeProps` (see `c9_prototype_counterexample`). -/
def eventWeight (name : Option String) : Int :=
  match weightTableRead name with
  | WeightRead.own w => w
  | WeightRead.inherited => DEFAULT_WEIGHT
  | WeightRead.undef => DEFAULT_WEIGHT

/-- Stable insertion step: `keep x y = true` means `y` stays in front of `x`. -/
def insertBy (keep : α → α → Bool) (x : α) : List α → List α
  | [] => [x]
  | y :: ys => if keep x y then y :: insertBy keep x ys else x :: y :: ys

/-- Stable insertion sort induced by `keep`. -/
def sortBy (keep : α → α → Bool) (l : List α) : List α :=
  l.foldr (insertBy keep) []

/-- Numeric value of a decimal digit string. -/
def natOfDigits (cs : List Char) : Nat :=
  cs.foldl (fun n c => 10 * n + (c.toNat - 48)) 0

/-- Whether a JS object key is a canonical array index: a decimal numeral
without a superfluous leading zero whose value is below `2 ^ 32 - 1`. -/
def isArrayIndexKey (s : String) : Bool :=
  match s.data with
  | [] => false
  | c :: cs =>
    c.isDigit && cs.all (fun d => d.isDigit) &&
      (decide (c ≠ '0') || decide (cs = [])) &&
      decide (natOfDigits (c :: cs) < 4294967295)

/-- The `Object.entries` enumeration order: array-index keys first in ascending
numeric order, then the remaining keys in insertion order. -/
def jsEntries (l : List (String × R)) : List (String × R) :=
  sortBy (fun x y => decide (natOfDigits y.1.data ≤ natOfDigits x.1.data))
      (l.filter (fun p => isArrayIndexKey p.1)) ++
    l.filter (fun p => !isArrayIndexKey p.1)

/-- Stable sort by score descending, as the stable JS
`sort((a, b) => b[1] - a[1])`. -/
def sortDesc [LinearOrder R] (l : List (String × R)) : List (String × R) :=
  sortBy (fun x y => decide (x.2 < y.2)) l

/-- Models `Array.prototype.slice(0, limit)`: a nonnegative `limit` takes a prefix,
a negative `limit` drops the last `|limit|` elements. -/
def jsSlice (limit : Int) (l : List α) : List α :=
  if limit < 0 then l.take (l.length - min l.length limit.natAbs)
  else l.take limit.toNat

/-- Models `scores[id] = (scores[id] || 0) + delta`, keeping the key
position of an existing entry (JS objects preserve key order on update) and
appending a new key at the end.  Faithful for ids outside
`objectPrototypeProps`: for those a fresh read is `undefined` (falsy) and
accumulation starts from 0, whereas an id such as "toString" would read the
inherited truthy member and string-concatenate, producing a non-numeric
score the ring-valued model cannot represent — theorems whose conclusions
depend on fresh-id accumulation therefore exclude such ids. -/
def updateScore [Add R] (sc : List (String × R)) (id : String) (delta : R) :
    List (String × R) :=
  match sc with
  | [] => [(id, delta)]
  | (k, v) :: rest =>
    if k = id then (k, v + delta) :: rest else (k, v) :: updateScore rest id delta

/-- Models `for (const id of ids) scores[id] = (scores[id] || 0) + weight * recency`. -/
def scoreIds [Add R] (sc : List (String × R)) (ids : List String) (delta : R) :
    List (String × R) :=
  ids.foldl (fun s i => updateScore s i delta) sc

/-- One loop iteration of `scoreEvents`, restricted to the `scores` component:
a `Purchase` event is skipped, every other event adds `weight * recency` to
each extracted id. -/
def applyScore [Mul R] [Add R] [IntCast R] (rec : Option ℚ → R)
    (sc : List (String × R)) (e : Event) : List (String × R) :=
  if e.name = some "Purchase" then sc
  else scoreIds sc (extractIds e) ((eventWeight e.name : R) * rec e.timestamp)

/-- The `scores` accumulator after the full pass over the events. -/
def accumulate [Mul R] [Add R] [IntCast R] (rec : Option ℚ → R)
    (events : List Event) : List (String × R) :=
  events.foldl (applyScore rec) []

/-- One loop iteration restricted to the `purchased` component. -/
def applyPurchase (pu : List String) (e : Event) : List String :=
  if e.name = some "Purchase" then pu ++ extractIds e else pu

/-- The `purchased` collection after the full pass over the events
(membership models the JS `Set`). -/
def collectPurchased (events : List Event) : List String :=
  events.foldl applyPurchase []

/-- The scoring engine `scoreEvents(events, requestedItems)` of
`src/server.js`, parameterised over the score ring and the recency function:
`Object.entries(scores).filter(([id]) => !purchased.has(id)).sort((a, b) => b[1] - a[1]).slice(0, requestedItems)`. -/
def scoreEventsWith [LinearOrderedCommRing R] (rec : Option ℚ → R)
    (events : List Event) (limit : Int) : List (String × R) :=
  jsSlice limit
    (sortDesc
      ((jsEntries (accumulate rec events)).filter
        (fun p => !(collectPurchased events).contains p.1)))

/-- The recency factor `Math.pow(0.5, ageInDays / RECENCY_HALF_LIFE_DAYS)` as
a real function of the age in days. -/
noncomputable def recencyOfAge (age : ℝ) : ℝ :=
  (1 / 2 : ℝ) ^ (age / (RECENCY_HALF_LIFE_DAYS : ℝ))

/-- The flat list of ids extracted from the `Purchase` events, in order. -/
def purchasedIds (events : List Event) : List String :=
  (events.filter (fun e => decide (e.name = some "Purchase"))).flatMap extractIds

/-- The flat list of ids extracted from the non-`Purchase` events, in order:
exactly the ids that receive score contributions. -/
def scoredIdsList (events : List Event) : List String :=
  (events.filter (fun e => !decide (e.name = some "Purchase"))).flatMap extractIds

/-- The accumulated score of an id: the entry of the `scores` accumulator,
`0` when the id was never scored. -/
def finalScore [Mul R] [Add R] [IntCast R] [Zero R] (rec : Option ℚ → R)
    (events : List Event) (id : String) : R :=
  ((accumulate rec events).lookup id).getD 0

/-- The number of distinct non-purchased ids with non-zero accumulated
contribution, the quantity named by the output-length contract. -/
def distinctScoredCount [LinearOrderedCommRing R] (rec : Option ℚ → R)
    (events : List Event) : Nat :=
  ((scoredIdsList events).toFinset.filter
    (fun id => id ∉ purchasedIds events ∧ finalScore rec events id ≠ 0)).card

/-- JSON values as produced by a successful `JSON.parse`. -/
inductive JsonVal where
  | null
  | bool (b : Bool)
  | num (q : ℚ)
  | str (s : String)
  | arr (elems : List JsonVal)
  | obj (fields : List (String × JsonVal))

/-- JS falsiness of a parsed JSON value (`null`, `false`, `0`, `""`). -/
def jsFalsy : JsonVal → Bool
  | .null => true
  | .bool b => !b
  | .num q => decide (q = 0)
  | .str s => decide (s = "")
  | .arr _ => false
  | .obj _ => false

/-- Models `payload.events`: property access on `null` throws a `TypeError`
(caught by the surrounding `try`); on a non-object it yields `undefined`
(`none`); on an object it reads the member. -/
def getEventsField : JsonVal → Except Unit (Option JsonVal)
  | .null => .error ()
  | .obj fields => .ok (fields.lookup "events")
  | _ => .ok none

/-- JS ToPropertyKey / String coercion used where a value becomes an object
key or is compared against the weight table.  Arrays join their elements
with commas (`null` elements coerce to the empty string), so
`String(["Purchase"]) = "Purchase"`; the decimal rendering of non-integral
numbers is approximate and never reached by any theorem below. -/
def jsKeyString : JsonVal → String
  | .null => "null"
  | .bool b => if b then "true" else "false"
  | .num q => if q.den = 1 then toString q.num else toString q
  | .str s => s
  | .arr l =>
    String.intercalate "," (l.attach.map (fun x =>
      match x with
      | ⟨JsonVal.null, _⟩ => ""
      | ⟨v, hv⟩ => jsKeyString v))
  | .obj _ => "[object Object]"
decreasing_by
  have hlt := List.sizeOf_lt_of_mem hv
  simp only [JsonVal.arr.sizeOf_spec]
  omega

/-- A JS value with no own properties reads as an event whose members are all
`undefined`. -/
def blankEvent : Event := ⟨none, none, none, none, none⟩

/-- Models `event.data.products.map(p => p.id)` on one array element: `null` has no
properties (`TypeError`, modelled as `none` = crash), an object reads `id`
(`undefined` coerces to the key "undefined"), a primitive reads `undefined`. -/
def productRecordId : JsonVal → Option String
  | .null => none
  | .obj fields =>
    some (match fields.lookup "id" with
      | some v => jsKeyString v
      | none => "undefined")
  | _ => some "undefined"

/-- Models `event.name`.  The strict comparison `event.name === 'Purchase'`
matches only the actual string, while the weight-table read coerces the
name via ToPropertyKey; decoding a non-string name to its string coercion
reproduces both the (failed) strict comparison and the table lookup.  The
single irrepresentable corner is a non-string name that coerces to
"Purchase" (such as `["Purchase"]`): the program then scores it with the
table weight -100 without excluding, which the typed event cannot express;
no theorem below reaches that corner. -/
def decodeName (fields : List (String × JsonVal)) : Option String :=
  (fields.lookup "name").map jsKeyString

/-- Models `event.timestamp`: any numeric member passes through as the
finite age input (integral or not), a missing or non-numeric member gives
`none` (the `NaN` age path). -/
def decodeTimestamp (fields : List (String × JsonVal)) : Option ℚ :=
  (fields.lookup "timestamp").bind (fun v =>
    match v with
    | .num q => some q
    | _ => none)

/-- The `event.data?.products?.map(p => p.id)` and `event.data?.id` tiers,
evaluated only when `event.productIds` was falsy (`||` short-circuits).
`none` models an uncaught `TypeError` (a `null` product sub-record, or a
truthy non-array `products` member without a `map` method). -/
def decodeDataTiers (fields : List (String × JsonVal)) : Option Event :=
  let did : Option String :=
    match fields.lookup "data" with
    | some (.obj dfields) =>
      match dfields.lookup "id" with
      | some v => if jsFalsy v then none else some (jsKeyString v)
      | none => none
    | _ => none
  match fields.lookup "data" with
  | some (.obj dfields) =>
    match dfields.lookup "products" with
    | none =>
      some ⟨decodeName fields, decodeTimestamp fields, none, none, did⟩
    | some .null =>
      some ⟨decodeName fields, decodeTimestamp fields, none, none, did⟩
    | some (.arr l) =>
      match l.mapM productRecordId with
      | some ids =>
        some ⟨decodeName fields, decodeTimestamp fields, none, some ids, did⟩
      | none => none
    | some _ => none
  | _ => some ⟨decodeName fields, decodeTimestamp fields, none, none, none⟩

/-- Decoding of the dynamic field accesses `scoreEvents` performs on one
element of the events array.  `none` models an uncaught `TypeError`.  A
truthy string `productIds` would iterate per character in the non-purchase
loop; that approximation is never reached by a theorem below. -/
def decodeEvent : JsonVal → Option Event
  | .null => none
  | .obj fields =>
    match fields.lookup "productIds" with
    | some v =>
      if jsFalsy v then decodeDataTiers fields
      else
        match v with
        | .arr l =>
          some ⟨decodeName fields, decodeTimestamp fields,
            some (l.map jsKeyString), none, none⟩
        | .str s =>
          some ⟨decodeName fields, decodeTimestamp fields,
            some (s.data.map (fun c => String.mk [c])), none, none⟩
        | _ => none
    | none => decodeDataTiers fields
  | _ => some blankEvent

/-- The value `events` is iterated with `for (const event of events)`: arrays
iterate their elements, strings iterate their characters (each a property-less
one-character string), anything else throws (`none` = crash). -/
def decodeEvents : JsonVal → Option (List Event)
  | .arr l => l.mapM decodeEvent
  | .str s => some (s.data.map (fun _ => blankEvent))
  | _ => none

/-- Outcome of the `POST /recommend` body handler: an HTTP response, or a
process-killing uncaught exception. -/
inductive HandlerOutcome where
  | response (status : Nat) (body : String)
  | crash
deriving DecidableEq

/-- Models `JSON.stringify(ranked.map(r => r.id))`; the ids exercised by the claims
need no escaping. -/
def renderIds (pairs : List (String × R)) : String :=
  "[" ++ String.intercalate "," (pairs.map (fun p => "\"" ++ p.1 ++ "\"")) ++ "]"

/-- The body-processing part of the `POST /recommend` handler:
`JSON.parse` failure (`none`) and a `TypeError` inside the `try` yield
`400` with body `[]`; otherwise `events = payload.events || []` is scored
and the ranked ids are returned with status `200`. -/
def handleRecommend [LinearOrderedCommRing R] (rec : Option ℚ → R)
    (parseResult : Option JsonVal) (requestedItems : Int) : HandlerOutcome :=
  match parseResult with
  | none => .response 400 "[]"
  | some payload =>
    match getEventsField payload with
    | .error _ => .response 400 "[]"
    | .ok fieldVal =>
      let evJson :=
        match fieldVal with
        | none => JsonVal.arr []
        | some v => if jsFalsy v then JsonVal.arr [] else v
      match decodeEvents evJson with
      | none => .crash
      | some events =>
        .response 200 (renderIds (scoreEventsWith rec events requestedItems))

/-- JS whitespace accepted by `parseInt` (ASCII part; the Unicode spaces are
never produced by a query string). -/
def isJsSpace (c : Char) : Bool :=
  c = ' ' || c = '\t' || c = '\n' || c = '\r' || c.toNat = 11 || c.toNat = 12

/-- Value of a hexadecimal digit. -/
def hexDigitVal (c : Char) : Option Nat :=
  if c.isDigit then some (c.toNat - 48)
  else if 'a' ≤ c && c ≤ 'f' then some (c.toNat - 87)
  else if 'A' ≤ c && c ≤ 'F' then some (c.toNat - 55)
  else none

/-- Value of a decimal digit. -/
def decDigitVal (c : Char) : Option Nat :=
  if c.isDigit then some (c.toNat - 48) else none

/-- Accumulate the longest digit prefix. -/
def digitsLoop (base : Nat) (val : Char → Option Nat) (acc : Nat) :
    List Char → Nat
  | [] => acc
  | c :: rest =>
    match val c with
    | some d => digitsLoop base val (base * acc + d) rest
    | none => acc

/-- The longest non-empty digit prefix, `none` when there is no digit. -/
def digitPrefixVal (base : Nat) (val : Char → Option Nat) :
    List Char → Option Nat
  | [] => none
  | c :: rest =>
    match val c with
    | some d => some (digitsLoop base val d rest)
    | none => none

/-- Models `parseInt(s)` (no radix argument): skip whitespace, read an optional
sign, detect a `0x`/`0X` prefix for base 16, else parse the longest decimal
digit prefix; `none` models `NaN`. -/
def jsParseInt (s : String) : Option Int :=
  let cs := s.data.dropWhile isJsSpace
  let signed : Bool × List Char :=
    match cs with
    | '-' :: rest => (true, rest)
    | '+' :: rest => (false, rest)
    | _ => (false, cs)
  let mag : Option Nat :=
    match signed.2 with
    | '0' :: 'x' :: rest => digitPrefixVal 16 hexDigitVal rest
    | '0' :: 'X' :: rest => digitPrefixVal 16 hexDigitVal rest
    | rest => digitPrefixVal 10 decDigitVal rest
  mag.map (fun n => if signed.1 then -(n : Int) else (n : Int))

/-- Models `const requestedItems = parseInt(parsed.query.requestedItems) || 3;`
(`NaN` and `0` are falsy, so both fall back to the default `3`). -/
def effectiveRequestedItems (raw : Option String) : Int :=
  match raw with
  | none => 3
  | some s =>
    match jsParseInt s with
    | none => 3
    | some n => if n = 0 then 3 else n

/-- The request handler as seen from the outside: the `requestedItems` query
parameter and the parsed request body determine the outcome. -/
def handleRequest [LinearOrderedCommRing R] (rec : Option ℚ → R)
    (rawQuery : Option String) (parseResult : Option JsonVal) :
    HandlerOutcome :=
  handleRecommend rec parseResult (effectiveRequestedItems rawQuery)

/-- Modelled from the spec extraction policy, for comparison with the code:
the three shapes are tried in priority order and the first NON-EMPTY source
wins, an empty higher-priority source falling through to the next shape. -/
def extractIdsSpecFirstNonEmpty (e : Event) : List String :=
  match e.productIds with
  | some (i :: rest) => i :: rest
  | _ =>
    match e.dataProducts with
    | some (i :: rest) => i :: rest
    | _ =>
      match e.dataId with
      | some i => [i]
      | none => []

theorem insertBy_split (keep : α → α → Bool) (x : α) (l : List α) :
    ∃ l₁ l₂, l = l₁ ++ l₂ ∧ insertBy keep x l = l₁ ++ x :: l₂ ∧
      ∀ y ∈ l₁, keep x y = true := by
  induction l with
  | nil => exact ⟨[], [], rfl, rfl, by simp⟩
  | cons y ys ih =>
    by_cases h : keep x y
    · obtain ⟨l₁, l₂, he, hi, hk⟩ := ih
      refine ⟨y :: l₁, l₂, by simp [he], ?_, ?_⟩
      · simp [insertBy, h, hi]
      · intro z hz
        rcases List.mem_cons.mp hz with rfl | hz
        · exact h
        · exact hk z hz
    · exact ⟨[], y :: ys, rfl, by simp [insertBy, h], by simp⟩

theorem sublist_insertBy (keep : α → α → Bool) (x : α) {s l : List α}
    (h : s.Sublist l) : s.Sublist (insertBy keep x l) := by
  obtain ⟨l₁, l₂, he, hi, -⟩ := insertBy_split keep x l
  rw [hi]
  subst he
  exact h.trans ((List.append_sublist_append_left l₁).mpr
    (List.sublist_cons_self x l₂))

theorem insertBy_perm (keep : α → α → Bool) (x : α) (l : List α) :
    (insertBy keep x l).Perm (x :: l) := by
  obtain ⟨l₁, l₂, he, hi, -⟩ := insertBy_split keep x l
  rw [hi, he]
  exact List.perm_middle

theorem sortBy_perm (keep : α → α → Bool) (l : List α) :
    (sortBy keep l).Perm l := by
  induction l with
  | nil => exact List.Perm.refl _
  | cons x xs ih =>
    have hs : sortBy keep (x :: xs) = insertBy keep x (sortBy keep xs) := rfl
    rw [hs]
    exact (insertBy_perm _ _ _).trans (ih.cons x)

theorem sortBy_pair_stable (keep : α → α → Bool) {a b : α}
    (hab : keep a b = false) :
    ∀ {l : List α}, [a, b].Sublist l → [a, b].Sublist (sortBy keep l) := by
  intro l
  induction l with
  | nil => intro h; simp at h
  | cons x xs ih =>
    intro h
    have hs : sortBy keep (x :: xs) = insertBy keep x (sortBy keep xs) := rfl
    rw [hs]
    cases h with
    | cons _ h' => exact sublist_insertBy _ _ (ih h')
    | cons₂ _ h' =>
      have hb : b ∈ sortBy keep xs :=
        ((sortBy_perm keep xs).mem_iff).mpr (List.singleton_sublist.mp h')
      obtain ⟨l₁, l₂, he, hi, hk⟩ := insertBy_split keep a (sortBy keep xs)
      rw [hi]
      have hbl : b ∈ l₂ := by
        rw [he] at hb
        rcases List.mem_append.mp hb with h₁ | h₂
        · rw [hk b h₁] at hab; exact absurd hab (by simp)
        · exact h₂
      exact (List.Sublist.cons₂ a (List.singleton_sublist.mpr hbl)).trans
        (List.sublist_append_right l₁ (a :: l₂))

theorem sublist_pair_take {a b : α} :
    ∀ {l : List α} {n : Nat}, l.Nodup → [a, b].Sublist l → b ∈ l.take n →
      [a, b].Sublist (l.take n) := by
  intro l
  induction l with
  | nil => intro n _ _ hb; simp at hb
  | cons x xs ih =>
    intro n hnd h hb
    cases n with
    | zero => simp at hb
    | succ m =>
      rw [List.take_succ_cons] at hb ⊢
      cases h with
      | cons _ h' =>
        have hbxs : b ∈ xs := h'.subset (by simp)
        have hbx : b ≠ x := by
          intro he
          subst he
          exact (List.nodup_cons.mp hnd).1 hbxs
        have hb' : b ∈ xs.take m := by
          rcases List.mem_cons.mp hb with he | hm
          · exact absurd he hbx
          · exact hm
        exact (ih (List.nodup_cons.mp hnd).2 h' hb').cons x
      | cons₂ _ h' =>
        have hbxs : b ∈ xs := List.singleton_sublist.mp h'
        have hbx : b ≠ a := by
          intro he
          subst he
          exact (List.nodup_cons.mp hnd).1 hbxs
        have hb' : b ∈ xs.take m := by
          rcases List.mem_cons.mp hb with he | hm
          · exact absurd he hbx
          · exact hm
        exact List.Sublist.cons₂ a (List.singleton_sublist.mpr hb')

theorem jsEntries_perm (l : List (String × R)) : (jsEntries l).Perm l := by
  unfold jsEntries
  exact ((sortBy_perm _ _).append_right _).trans
    (List.filter_append_perm (fun p => isArrayIndexKey p.1) l)

theorem jsEntries_pair_sublist {p q : String × R} {l : List (String × R)}
    (hp : isArrayIndexKey p.1 = false) (hq : isArrayIndexKey q.1 = false)
    (h : [p, q].Sublist l) : [p, q].Sublist (jsEntries l) := by
  have h₁ := List.Sublist.filter (fun r => !isArrayIndexKey r.1) h
  rw [show List.filter (fun r => !isArrayIndexKey r.1) [p, q] = [p, q] by
    simp [List.filter, hp, hq]] at h₁
  exact h₁.trans (List.sublist_append_right _ _)

theorem pair_sublist_filter {p q : α} {pr : α → Bool} {l : List α}
    (hp : pr p = true) (hq : pr q = true) (h : [p, q].Sublist l) :
    [p, q].Sublist (l.filter pr) := by
  have h₁ := List.Sublist.filter pr h
  rw [show List.filter pr [p, q] = [p, q] by simp [List.filter, hp, hq]] at h₁
  exact h₁

theorem jsSlice_eq_take (limit : Int) (l : List α) :
    ∃ k, jsSlice limit l = l.take k := by
  unfold jsSlice
  by_cases h : limit < 0
  · exact ⟨l.length - min l.length limit.natAbs, by rw [if_pos h]⟩
  · exact ⟨limit.toNat, by rw [if_neg h]⟩

theorem applyScore_purchase [Mul R] [Add R] [IntCast R] (rec : Option ℚ → R)
    (sc : List (String × R)) {e : Event} (h : e.name = some "Purchase") :
    applyScore rec sc e = sc := by
  unfold applyScore
  rw [if_pos h]

theorem applyScore_no_ids [Mul R] [Add R] [IntCast R] (rec : Option ℚ → R)
    (sc : List (String × R)) {e : Event} (h : extractIds e = []) :
    applyScore rec sc e = sc := by
  unfold applyScore
  rw [h]
  split
  · rfl
  · rfl

theorem applyPurchase_no_ids (pu : List String) {e : Event}
    (h : extractIds e = []) : applyPurchase pu e = pu := by
  unfold applyPurchase
  rw [h]
  split
  · exact List.append_nil pu
  · rfl

theorem updateScore_fst_mem [Add R] (sc : List (String × R)) (id : String)
    (delta : R) (id' : String) :
    id' ∈ (updateScore sc id delta).map Prod.fst ↔
      id' ∈ sc.map Prod.fst ∨ id' = id := by
  induction sc with
  | nil => simp [updateScore]
  | cons kv rest ih =>
    obtain ⟨k, v⟩ := kv
    by_cases h : k = id
    · subst h
      simp [updateScore]
      tauto
    · simp [updateScore, h, ih]
      tauto

theorem updateScore_fst_nodup [Add R] {sc : List (String × R)} (id : String)
    (delta : R) (h : (sc.map Prod.fst).Nodup) :
    ((updateScore sc id delta).map Prod.fst).Nodup := by
  induction sc with
  | nil => simp [updateScore]
  | cons kv rest ih =>
    obtain ⟨k, v⟩ := kv
    rw [List.map_cons, List.nodup_cons] at h
    by_cases hk : k = id
    · subst hk
      simpa [updateScore, List.nodup_cons] using h
    · rw [show updateScore ((k, v) :: rest) id delta =
        (k, v) :: updateScore rest id delta by simp [updateScore, hk]]
      rw [List.map_cons, List.nodup_cons]
      refine ⟨?_, ih h.2⟩
      rw [updateScore_fst_mem]
      rintro (hc | hc)
      · exact h.1 hc
      · exact hk (show k = id from hc)

theorem updateScore_snd_pos [LinearOrderedCommRing R] {sc : List (String × R)}
    {delta : R} (hsc : ∀ r ∈ sc, 0 < r.2) (hd : 0 < delta) (id : String) :
    ∀ r ∈ updateScore sc id delta, 0 < r.2 := by
  induction sc with
  | nil =>
    intro r hr
    simp [updateScore] at hr
    rw [hr]
    exact hd
  | cons kv rest ih =>
    obtain ⟨k, v⟩ := kv
    intro r hr
    by_cases hk : k = id
    · subst hk
      simp [updateScore] at hr
      rcases hr with rfl | hr
      · have hv : 0 < v := by simpa using hsc (k, v) (by simp)
        simpa using add_pos hv hd
      · exact hsc r (by simp [hr])
    · simp [updateScore, hk] at hr
      rcases hr with rfl | hr
      · exact hsc (k, v) (by simp)
      · exact ih (fun r h => hsc r (by simp [h])) r hr

theorem scoreIds_fst_mem [Add R] (ids : List String) (delta : R) :
    ∀ (sc : List (String × R)) (id' : String),
      id' ∈ (scoreIds sc ids delta).map Prod.fst ↔
        id' ∈ sc.map Prod.fst ∨ id' ∈ ids := by
  induction ids with
  | nil => simp [scoreIds]
  | cons i rest ih =>
    intro sc id'
    have hstep : scoreIds sc (i :: rest) delta =
        scoreIds (updateScore sc i delta) rest delta := rfl
    rw [hstep, ih, updateScore_fst_mem]
    simp [List.mem_cons]
    tauto

theorem scoreIds_fst_nodup [Add R] (ids : List String) (delta : R) :
    ∀ {sc : List (String × R)}, (sc.map Prod.fst).Nodup →
      ((scoreIds sc ids delta).map Prod.fst).Nodup := by
  induction ids with
  | nil => intro sc h; exact h
  | cons i rest ih =>
    intro sc h
    exact ih (updateScore_fst_nodup i delta h)

theorem scoreIds_snd_pos [LinearOrderedCommRing R] (ids : List String)
    {delta : R} (hd : 0 < delta) :
    ∀ {sc : List (String × R)}, (∀ r ∈ sc, 0 < r.2) →
      ∀ r ∈ scoreIds sc ids delta, 0 < r.2 := by
  induction ids with
  | nil => intro sc h; exact h
  | cons i rest ih =>
    intro sc h
    exact ih (updateScore_snd_pos h hd i)

theorem eventWeight_pos {name : Option String} (h : ¬ name = some "Purchase") :
    0 < eventWeight name := by
  match name with
  | none => decide
  | some s =>
    have hs : ¬ s = "Purchase" := fun he => h (by rw [he])
    by_cases h1 : s = "ProductAddToCart"
    · subst h1; decide
    by_cases h2 : s = "ProductDetailsView"
    · subst h2; decide
    by_cases h3 : s = "MyCustomEvent"
    · subst h3; decide
    by_cases h4 : s = "MyCustomWishlistEvent"
    · subst h4; decide
    have b1 : (s == "ProductAddToCart") = false := beq_eq_false_iff_ne.mpr h1
    have b2 : (s == "ProductDetailsView") = false := beq_eq_false_iff_ne.mpr h2
    have b3 : (s == "MyCustomEvent") = false := beq_eq_false_iff_ne.mpr h3
    have b4 : (s == "MyCustomWishlistEvent") = false := beq_eq_false_iff_ne.mpr h4
    have b5 : (s == "Purchase") = false := beq_eq_false_iff_ne.mpr hs
    have hlk : EVENT_WEIGHTS.lookup s = none := by
      simp [EVENT_WEIGHTS, List.lookup, b1, b2, b3, b4, b5]
    by_cases hp : s ∈ objectPrototypeProps <;>
      simp [eventWeight, weightTableRead, hlk, hp, DEFAULT_WEIGHT]

theorem accumulate_fold_fst_mem [Mul R] [Add R] [IntCast R]
    (rec : Option ℚ → R) (events : List Event) :
    ∀ (sc : List (String × R)) (id : String),
      id ∈ (events.foldl (applyScore rec) sc).map Prod.fst ↔
        id ∈ sc.map Prod.fst ∨
          ∃ e ∈ events, ¬ e.name = some "Purchase" ∧ id ∈ extractIds e := by
  induction events with
  | nil => simp
  | cons e rest ih =>
    intro sc id
    rw [List.foldl_cons, ih]
    by_cases h : e.name = some "Purchase"
    · rw [applyScore_purchase rec sc h]
      simp only [List.mem_cons]
      constructor
      · rintro (hm | ⟨e', he', hn, hi⟩)
        · exact Or.inl hm
        · exact Or.inr ⟨e', Or.inr he', hn, hi⟩
      · rintro (hm | ⟨e', he' | he', hn, hi⟩)
        · exact Or.inl hm
        · exact absurd (he' ▸ h) hn
        · exact Or.inr ⟨e', he', hn, hi⟩
    · rw [show applyScore rec sc e =
        scoreIds sc (extractIds e) ((eventWeight e.name : R) * rec e.timestamp)
        from by unfold applyScore; rw [if_neg h]]
      rw [scoreIds_fst_mem]
      simp only [List.mem_cons]
      constructor
      · rintro ((hm | hi) | ⟨e', he', hn, hi⟩)
        · exact Or.inl hm
        · exact Or.inr ⟨e, Or.inl rfl, h, hi⟩
        · exact Or.inr ⟨e', Or.inr he', hn, hi⟩
      · rintro (hm | ⟨e', he' | he', hn, hi⟩)
        · exact Or.inl (Or.inl hm)
        · exact Or.inl (Or.inr (he' ▸ hi))
        · exact Or.inr ⟨e', he', hn, hi⟩

theorem accumulate_fold_fst_nodup [Mul R] [Add R] [IntCast R]
    (rec : Option ℚ → R) (events : List Event) :
    ∀ {sc : List (String × R)}, (sc.map Prod.fst).Nodup →
      ((events.foldl (applyScore rec) sc).map Prod.fst).Nodup := by
  induction events with
  | nil => intro sc h; exact h
  | cons e rest ih =>
    intro sc h
    rw [List.foldl_cons]
    refine ih ?_
    unfold applyScore
    split
    · exact h
    · exact scoreIds_fst_nodup _ _ h

theorem accumulate_fold_snd_pos [LinearOrderedCommRing R]
    {rec : Option ℚ → R} (hrec : ∀ t, 0 < rec t) (events : List Event) :
    ∀ {sc : List (String × R)}, (∀ r ∈ sc, 0 < r.2) →
      ∀ r ∈ events.foldl (applyScore rec) sc, 0 < r.2 := by
  induction events with
  | nil => intro sc h; exact h
  | cons e rest ih =>
    intro sc h
    rw [List.foldl_cons]
    refine ih ?_
    unfold applyScore
    split
    · exact h
    · rename_i hn
      have hw : (0 : R) < (eventWeight e.name : R) := by
        exact_mod_cast eventWeight_pos hn
      exact scoreIds_snd_pos _ (mul_pos hw (hrec e.timestamp)) h

theorem accumulate_fst_mem [Mul R] [Add R] [IntCast R]
    (rec : Option ℚ → R) (events : List Event) (id : String) :
    id ∈ (accumulate rec events).map Prod.fst ↔
      ∃ e ∈ events, ¬ e.name = some "Purchase" ∧ id ∈ extractIds e := by
  unfold accumulate
  rw [accumulate_fold_fst_mem]
  simp

theorem accumulate_fst_nodup [Mul R] [Add R] [IntCast R]
    (rec : Option ℚ → R) (events : List Event) :
    ((accumulate rec events).map Prod.fst).Nodup :=
  accumulate_fold_fst_nodup rec events (by simp)

theorem accumulate_snd_pos [LinearOrderedCommRing R]
    {rec : Option ℚ → R} (hrec : ∀ t, 0 < rec t) (events : List Event) :
    ∀ r ∈ accumulate rec events, 0 < r.2 :=
  accumulate_fold_snd_pos hrec events (by simp)

theorem collectPurchased_eq (events : List Event) :
    collectPurchased events = purchasedIds events := by
  suffices h : ∀ pu, events.foldl applyPurchase pu = pu ++ purchasedIds events by
    simpa [collectPurchased] using h []
  induction events with
  | nil => intro pu; simp [purchasedIds]
  | cons e rest ih =>
    intro pu
    rw [List.foldl_cons]
    by_cases h : e.name = some "Purchase"
    · rw [show applyPurchase pu e = pu ++ extractIds e from by
        unfold applyPurchase; rw [if_pos h], ih]
      simp [purchasedIds, List.filter_cons, h, List.append_assoc]
    · rw [show applyPurchase pu e = pu from by
        unfold applyPurchase; rw [if_neg h], ih]
      simp [purchasedIds, List.filter_cons, h]

theorem mem_scoredIdsList {events : List Event} {id : String} :
    id ∈ scoredIdsList events ↔
      ∃ e ∈ events, ¬ e.name = some "Purchase" ∧ id ∈ extractIds e := by
  simp only [scoredIdsList, List.mem_flatMap, List.mem_filter]
  constructor
  · rintro ⟨e, ⟨he, hn⟩, hi⟩
    exact ⟨e, he, by simpa using hn, hi⟩
  · rintro ⟨e, he, hn, hi⟩
    exact ⟨e, ⟨he, by simpa using hn⟩, hi⟩

theorem lookup_getD_pos [LinearOrderedCommRing R] {l : List (String × R)}
    {k : String} (hmem : k ∈ l.map Prod.fst) (hpos : ∀ r ∈ l, 0 < r.2) :
    0 < (l.lookup k).getD 0 := by
  induction l with
  | nil => simp at hmem
  | cons kv rest ih =>
    obtain ⟨k₁, v⟩ := kv
    by_cases h : k = k₁
    · subst h
      have : List.lookup k ((k, v) :: rest) = some v := by
        rw [List.lookup_cons]
        simp
      rw [this]
      simpa using hpos (k, v) (by simp)
    · have : List.lookup k ((k₁, v) :: rest) = List.lookup k rest := by
        rw [List.lookup_cons]
        rw [show (k == k₁) = false from beq_eq_false_iff_ne.mpr h]
      rw [this]
      refine ih ?_ (fun r hr => hpos r (by simp [hr]))
      rw [List.map_cons] at hmem
      rcases List.mem_cons.mp hmem with he | hm
      · exact absurd (show k = k₁ from he) h
      · exact hm

theorem contains_eq_false_iff {l : List String} {s : String} :
    l.contains s = false ↔ s ∉ l := by
  constructor
  · intro h hm
    have he := List.elem_iff.mpr hm
    rw [show List.elem s l = l.contains s from rfl, h] at he
    cases he
  · intro h
    cases hc : l.contains s
    · rfl
    · exact absurd (List.elem_iff.mp (show List.elem s l = true from hc)) h

theorem ranked_length [LinearOrderedCommRing R] {rec : Option ℚ → R}
    (hrec : ∀ t, 0 < rec t) (events : List Event) :
    (sortDesc ((jsEntries (accumulate rec events)).filter
      (fun p => !(collectPurchased events).contains p.1))).length =
      distinctScoredCount rec events := by
  have h1 : (sortDesc ((jsEntries (accumulate rec events)).filter
      (fun p => !(collectPurchased events).contains p.1))).length =
      ((accumulate rec events).filter
        (fun p => !(collectPurchased events).contains p.1)).length := by
    have p1 := sortBy_perm (fun x y : String × R => decide (x.2 < y.2))
      ((jsEntries (accumulate rec events)).filter
        (fun p => !(collectPurchased events).contains p.1))
    have p2 := (jsEntries_perm (accumulate rec events)).filter
      (fun p => !(collectPurchased events).contains p.1)
    exact (p1.trans p2).length_eq
  rw [h1]
  have h2 : ((accumulate rec events).filter
      (fun p => !(collectPurchased events).contains p.1)).length =
      (((accumulate rec events).map Prod.fst).filter
        (fun id => !(collectPurchased events).contains id)).length := by
    rw [List.filter_map, List.length_map]
    rfl
  rw [h2]
  have hKnd : (((accumulate rec events).map Prod.fst).filter
      (fun id => !(collectPurchased events).contains id)).Nodup :=
    (accumulate_fst_nodup rec events).filter _
  rw [← List.toFinset_card_of_nodup hKnd, List.toFinset_filter]
  have hbase : ((accumulate rec events).map Prod.fst).toFinset =
      (scoredIdsList events).toFinset := by
    ext id
    simp only [List.mem_toFinset]
    exact (accumulate_fst_mem rec events id).trans mem_scoredIdsList.symm
  rw [hbase]
  unfold distinctScoredCount
  congr 1
  apply Finset.filter_congr
  intro id hid
  rw [List.mem_toFinset] at hid
  have hidK : id ∈ (accumulate rec events).map Prod.fst :=
    (accumulate_fst_mem rec events id).mpr (mem_scoredIdsList.mp hid)
  have hfs : finalScore rec events id ≠ 0 :=
    (lookup_getD_pos hidK (accumulate_snd_pos hrec events)).ne'
  constructor
  · intro hpk
    refine ⟨?_, hfs⟩
    rw [Bool.not_eq_true'] at hpk
    rw [← collectPurchased_eq]
    exact contains_eq_false_iff.mp hpk
  · rintro ⟨hnp, -⟩
    rw [Bool.not_eq_true']
    rw [← collectPurchased_eq] at hnp
    exact contains_eq_false_iff.mpr hnp

theorem jsSlice_length_nonneg {limit : Int} (h : 0 ≤ limit) (l : List α) :
    (jsSlice limit l).length = min limit.toNat l.length := by
  unfold jsSlice
  rw [if_neg (not_lt.mpr h), List.length_take]

theorem jsSlice_zero (l : List α) : jsSlice (0 : Int) l = [] := by
  unfold jsSlice
  rw [if_neg (lt_irrefl 0)]
  simp

theorem jsSlice_length_neg {limit : Int} (h : limit < 0) (l : List α) :
    (jsSlice limit l).length = l.length - min l.length limit.natAbs := by
  unfold jsSlice
  rw [if_pos h, List.length_take]
  exact min_eq_left (Nat.sub_le _ _)

theorem jsSlice_all {limit : Int} {l : List α} (h : (l.length : Int) ≤ limit) :
    jsSlice limit l = l := by
  have h0 : (0 : Int) ≤ limit := le_trans (by positivity) h
  unfold jsSlice
  rw [if_neg (not_lt.mpr h0)]
  exact List.take_of_length_le ((Int.le_toNat h0).mpr h)

/-- C1: for every event list and every limit in the contract domain
(a non-negative integer), the sequence returned by the scoring engine has
length exactly `min limit (number of distinct non-purchased ids with
non-zero accumulated contribution)`.  The positivity hypothesis on the
recency function holds for the programmed recency `0.5 ^ (age / 7)`, which
is strictly positive (`recencyOfAge_pos` below). -/
theorem c1_output_length {R : Type} [LinearOrderedCommRing R]
    {rec : Option ℚ → R} (hrec : ∀ t, 0 < rec t) (events : List Event)
    {limit : Int} (hlim : 0 ≤ limit) :
    (scoreEventsWith rec events limit).length =
      min limit.toNat (distinctScoredCount rec events) := by
  unfold scoreEventsWith
  rw [jsSlice_length_nonneg hlim, ranked_length hrec]

theorem c1_output_length_witness :
    (0 : Int) ≤ 3 ∧
    (scoreEventsWith (fun _ => (1 : ℤ))
      [⟨some "ProductAddToCart", some 0, some ["p1"], none, none⟩,
       ⟨some "ProductDetailsView", some 0, some ["p2"], none, none⟩] 3).length =
      min (Int.toNat 3)
        (distinctScoredCount (fun _ => (1 : ℤ))
          [⟨some "ProductAddToCart", some 0, some ["p1"], none, none⟩,
           ⟨some "ProductDetailsView", some 0, some ["p2"], none, none⟩]) :=
  ⟨by decide, c1_output_length (fun t => by decide) _ (by decide)⟩

/-- C6 counterexample: with `limit = -1 ≤ 0` and two scored products the
engine returns one entry, not the empty sequence, because
`Array.prototype.slice(0, -1)` drops one element from the end. -/
theorem c6_negative_limit_counterexample :
    (-1 : Int) ≤ 0 ∧
    scoreEventsWith (fun _ => (1 : ℤ))
      [⟨some "ProductAddToCart", some 0, some ["p1"], none, none⟩,
       ⟨some "ProductDetailsView", some 0, some ["p2"], none, none⟩] (-1) =
      [("p1", 10)] :=
  ⟨by decide, by decide⟩

/-- C6 amended: with `limit = 0` the engine returns the empty sequence; a
negative limit instead returns all but the last `|limit|` entries; a limit
at least the number of available distinct non-purchased scored ids returns
all of them. -/
theorem c6_truncation {R : Type} [LinearOrderedCommRing R]
    {rec : Option ℚ → R} (hrec : ∀ t, 0 < rec t) (events : List Event) :
    scoreEventsWith rec events 0 = [] ∧
    (∀ limit : Int, limit < 0 → (scoreEventsWith rec events limit).length =
      distinctScoredCount rec events -
        min (distinctScoredCount rec events) limit.natAbs) ∧
    (∀ limit : Int, (distinctScoredCount rec events : Int) ≤ limit →
      (scoreEventsWith rec events limit).length =
        distinctScoredCount rec events ∧
      ∀ id, id ∈ scoredIdsList events → id ∉ purchasedIds events →
        id ∈ (scoreEventsWith rec events limit).map Prod.fst) := by
  refine ⟨?_, ?_, ?_⟩
  · unfold scoreEventsWith
    exact jsSlice_zero _
  · intro limit hneg
    unfold scoreEventsWith
    rw [jsSlice_length_neg hneg, ranked_length hrec]
  · intro limit hbig
    have hlen := ranked_length hrec events
    have hall : jsSlice limit
        (sortDesc ((jsEntries (accumulate rec events)).filter
          (fun p => !(collectPurchased events).contains p.1))) =
        sortDesc ((jsEntries (accumulate rec events)).filter
          (fun p => !(collectPurchased events).contains p.1)) := by
      apply jsSlice_all
      rw [hlen]
      exact hbig
    unfold scoreEventsWith
    rw [hall]
    refine ⟨hlen, ?_⟩
    intro id hids hnp
    rw [List.mem_map]
    have hidA : id ∈ (accumulate rec events).map Prod.fst :=
      (accumulate_fst_mem rec events id).mpr (mem_scoredIdsList.mp hids)
    rw [List.mem_map] at hidA
    obtain ⟨p, hpA, hp1⟩ := hidA
    refine ⟨p, ?_, hp1⟩
    have hcf : (collectPurchased events).contains p.1 = false := by
      rw [collectPurchased_eq]
      refine contains_eq_false_iff.mpr ?_
      rw [hp1]
      exact hnp
    have hpX : p ∈ (jsEntries (accumulate rec events)).filter
        (fun q => !(collectPurchased events).contains q.1) := by
      rw [List.mem_filter]
      refine ⟨((jsEntries_perm _).mem_iff).mpr hpA, ?_⟩
      rw [hcf]
      rfl
    exact ((sortBy_perm _ _).mem_iff).mpr hpX

theorem c6_truncation_witness :
    scoreEventsWith (fun _ => (1 : ℤ))
      [⟨some "ProductAddToCart", some 0, some ["p1"], none, none⟩,
       ⟨some "ProductDetailsView", some 0, some ["p2"], none, none⟩] 0 = [] ∧
    (scoreEventsWith (fun _ => (1 : ℤ))
      [⟨some "ProductAddToCart", some 0, some ["p1"], none, none⟩,
       ⟨some "ProductDetailsView", some 0, some ["p2"], none, none⟩]
        (-1)).length =
      distinctScoredCount (fun _ => (1 : ℤ))
        [⟨some "ProductAddToCart", some 0, some ["p1"], none, none⟩,
         ⟨some "ProductDetailsView", some 0, some ["p2"], none, none⟩] -
        min (distinctScoredCount (fun _ => (1 : ℤ))
          [⟨some "ProductAddToCart", some 0, some ["p1"], none, none⟩,
           ⟨some "ProductDetailsView", some 0, some ["p2"], none, none⟩])
          (Int.natAbs (-1)) :=
  ⟨(c6_truncation (fun t => by decide) _).1,
   (c6_truncation (fun t => by decide) _).2.1 (-1) (by decide)⟩

/-- A `ProductAddToCart` event (weight 10) for one product at timestamp 0. -/
def cartEvt (id : String) : Event :=
  ⟨some "ProductAddToCart", some 0, some [id], none, none⟩

/-- A `ProductDetailsView` event (weight 5) for one product at timestamp 0. -/
def viewEvt (id : String) : Event :=
  ⟨some "ProductDetailsView", some 0, some [id], none, none⟩

/-- A `Purchase` event for one product at timestamp 0. -/
def purchaseEvt (id : String) : Event :=
  ⟨some "Purchase", some 0, some [id], none, none⟩

/-- C2: an id extracted by a `Purchase` event never appears in the returned
ranking, whatever scores it accumulated from other events; and a `Purchase`
event contributes nothing to the score accumulator. -/
theorem c2_purchase_exclusion {R : Type} [LinearOrderedCommRing R]
    (rec : Option ℚ → R) :
    (∀ (events : List Event) (limit : Int) (e : Event) (id : String),
      e ∈ events → e.name = some "Purchase" → id ∈ extractIds e →
      id ∉ (scoreEventsWith rec events limit).map Prod.fst) ∧
    (∀ (l₁ l₂ : List Event) (e : Event), e.name = some "Purchase" →
      accumulate rec (l₁ ++ e :: l₂) = accumulate rec (l₁ ++ l₂)) := by
  constructor
  · intro events limit e id he hn hid hmem
    rw [List.mem_map] at hmem
    obtain ⟨p, hp, hp1⟩ := hmem
    unfold scoreEventsWith at hp
    obtain ⟨k, hk⟩ := jsSlice_eq_take limit
      (sortDesc ((jsEntries (accumulate rec events)).filter
        (fun q => !(collectPurchased events).contains q.1)))
    rw [hk] at hp
    have hp2 := List.mem_of_mem_take hp
    have hp3 := ((sortBy_perm _ _).mem_iff).mp hp2
    rw [List.mem_filter] at hp3
    have hcontains : (collectPurchased events).contains p.1 = false := by
      cases hb : (collectPurchased events).contains p.1
      · rfl
      · rw [hb] at hp3
        exact absurd hp3.2 (by simp)
    have hpu : id ∈ collectPurchased events := by
      rw [collectPurchased_eq]
      unfold purchasedIds
      rw [List.mem_flatMap]
      exact ⟨e, List.mem_filter.mpr ⟨he, by simp [hn]⟩, hid⟩
    rw [hp1] at hcontains
    exact absurd hpu (contains_eq_false_iff.mp hcontains)
  · intro l₁ l₂ e hn
    unfold accumulate
    rw [List.foldl_append, List.foldl_append, List.foldl_cons,
      applyScore_purchase rec _ hn]

theorem c2_purchase_exclusion_witness :
    "p1" ∉ (scoreEventsWith (fun _ => (1 : ℤ))
      [purchaseEvt "p1", cartEvt "p1"] 3).map Prod.fst ∧
    accumulate (fun _ => (1 : ℤ)) ([] ++ purchaseEvt "p1" :: [cartEvt "p1"]) =
      accumulate (fun _ => (1 : ℤ)) ([] ++ [cartEvt "p1"]) :=
  ⟨(c2_purchase_exclusion _).1 [purchaseEvt "p1", cartEvt "p1"] 3
      (purchaseEvt "p1") "p1" (by decide) rfl (by decide),
   (c2_purchase_exclusion _).2 [] [cartEvt "p1"] (purchaseEvt "p1") rfl⟩

/-- On well-formed event RECORDS the engine degrades gracefully: an event
with no extractable ids (such as `blankEvent`) is a complete no-op wherever
it occurs.  This is the extent of the graceful degradation; totality does
NOT extend to arbitrary JSON event lists, see `c7_malformed_event_crash`. -/
theorem no_ids_event_inert {R : Type} [LinearOrderedCommRing R]
    (rec : Option ℚ → R) (l₁ l₂ : List Event) (e : Event) (limit : Int)
    (h : extractIds e = []) :
    scoreEventsWith rec (l₁ ++ e :: l₂) limit =
      scoreEventsWith rec (l₁ ++ l₂) limit := by
  have hacc : accumulate rec (l₁ ++ e :: l₂) = accumulate rec (l₁ ++ l₂) := by
    unfold accumulate
    rw [List.foldl_append, List.foldl_append, List.foldl_cons,
      applyScore_no_ids rec _ h]
  have hpu : collectPurchased (l₁ ++ e :: l₂) = collectPurchased (l₁ ++ l₂) := by
    unfold collectPurchased
    rw [List.foldl_append, List.foldl_append, List.foldl_cons,
      applyPurchase_no_ids _ h]
  unfold scoreEventsWith
  rw [hacc, hpu]

/-- C7: the claim (and the spec: the engine never fails, the process never
crashes on bad request data) is right about the intent, but the code
violates it: `scoreEvents` runs outside the `try`, and a valid-JSON request
whose events array holds `null` throws an uncaught `TypeError` at
`event.productIds`, as does an event `data.products = 5` — an event
with no extractable ids per the extraction policy — when `(5).map` is
called.  Both are modelled as the `crash` outcome of the handler, which
kills the process instead of degrading gracefully. -/
theorem c7_malformed_event_crash :
    decodeEvents (JsonVal.arr [JsonVal.null]) = none ∧
    handleRecommend (fun _ => (1 : ℤ))
      (some (JsonVal.obj [("events", JsonVal.arr [JsonVal.null])])) 3 =
      HandlerOutcome.crash ∧
    decodeEvent (JsonVal.obj
      [("data", JsonVal.obj [("products", JsonVal.num 5)])]) = none ∧
    handleRecommend (fun _ => (1 : ℤ))
      (some (JsonVal.obj [("events", JsonVal.arr
        [JsonVal.obj [("data", JsonVal.obj [("products", JsonVal.num 5)])]])]))
      3 = HandlerOutcome.crash :=
  ⟨rfl, rfl, rfl, rfl⟩

/-- The programmed recency factor is strictly positive at every age, hence
every accumulated score contribution is non-zero. -/
theorem recencyOfAge_pos (age : ℝ) : 0 < recencyOfAge age :=
  Real.rpow_pos_of_pos (by norm_num) _

/-- C4: the recency factor `0.5 ^ (age / 7)` is strictly decreasing in the
age for age ≥ 0, equals exactly 1 at age 0, equals exactly 1/2 at age
`RECENCY_HALF_LIFE_DAYS = 7`, and exceeds 1 for every negative age
(future timestamp), unclamped. -/
theorem c4_recency_properties :
    (∀ a b : ℝ, 0 ≤ a → a < b → recencyOfAge b < recencyOfAge a) ∧
    recencyOfAge 0 = 1 ∧
    recencyOfAge (RECENCY_HALF_LIFE_DAYS : ℝ) = 1 / 2 ∧
    (∀ a : ℝ, a < 0 → 1 < recencyOfAge a) := by
  have h7 : (RECENCY_HALF_LIFE_DAYS : ℝ) = 7 := by
    norm_num [RECENCY_HALF_LIFE_DAYS]
  refine ⟨?_, ?_, ?_, ?_⟩
  · intro a b _ hab
    unfold recencyOfAge
    apply Real.rpow_lt_rpow_of_exponent_gt (by norm_num) (by norm_num)
    rw [h7]
    gcongr
  · unfold recencyOfAge
    rw [zero_div, Real.rpow_zero]
  · unfold recencyOfAge
    rw [h7, div_self (by norm_num : (7 : ℝ) ≠ 0), Real.rpow_one]
  · intro a ha
    unfold recencyOfAge
    rw [Real.one_lt_rpow_iff_of_pos (by norm_num)]
    right
    refine ⟨by norm_num, ?_⟩
    rw [h7]
    exact div_neg_of_neg_of_pos ha (by norm_num)

theorem c4_recency_properties_witness :
    recencyOfAge 7 < recencyOfAge 0 ∧ 1 < recencyOfAge (-7) :=
  ⟨c4_recency_properties.1 0 7 le_rfl (by norm_num),
   c4_recency_properties.2.2.2 (-7) (by norm_num)⟩

/-- C3 counterexample: an event with a present but empty `productIds` array
and an embedded `data.id` extracts nothing, while the first-non-empty-wins
policy of the spec would extract the embedded id: an empty higher-priority
source does NOT fall through (a present empty array is truthy in JS). -/
theorem c3_extraction_counterexample :
    extractIds ⟨some "ProductDetailsView", some 0, some [], none, some "x"⟩
      = [] ∧
    extractIdsSpecFirstNonEmpty
      ⟨some "ProductDetailsView", some 0, some [], none, some "x"⟩ = ["x"] :=
  ⟨rfl, rfl⟩

/-- C3 amended: extraction tries the three shapes in fixed priority order,
but the first PRESENT source wins: an absent (undefined) higher-priority
source falls through, while a present empty list yields the empty list; the
third tier additionally tests the truthiness of the embedded id itself. -/
theorem c3_first_present_wins (e : Event) :
    (∀ l, e.productIds = some l → extractIds e = l) ∧
    (e.productIds = none → ∀ l, e.dataProducts = some l → extractIds e = l) ∧
    (e.productIds = none → e.dataProducts = none → ∀ i, e.dataId = some i →
      extractIds e = if i = "" then [] else [i]) ∧
    (e.productIds = none → e.dataProducts = none → e.dataId = none →
      extractIds e = []) := by
  obtain ⟨n, t, p, dp, di⟩ := e
  cases p <;> cases dp <;> cases di <;> simp [extractIds]

theorem c3_first_present_wins_witness :
    extractIds ⟨some "V", some 0, some ["a"], some ["b"], some "c"⟩ = ["a"] ∧
    extractIds ⟨some "V", some 0, none, some ["b"], some "c"⟩ = ["b"] ∧
    extractIds ⟨some "V", some 0, none, none, some "c"⟩ = ["c"] ∧
    extractIds ⟨some "V", some 0, none, none, none⟩ = [] :=
  ⟨(c3_first_present_wins _).1 ["a"] rfl,
   (c3_first_present_wins _).2.1 rfl ["b"] rfl,
   by simpa using (c3_first_present_wins
     ⟨some "V", some 0, none, none, some "c"⟩).2.2.1 rfl rfl "c" rfl,
   (c3_first_present_wins _).2.2.2 rfl rfl rfl⟩

theorem jsEntries_singleton (p : String × R) : jsEntries [p] = [p] := by
  by_cases h : isArrayIndexKey p.1 <;>
    simp [jsEntries, sortBy, insertBy, List.filter, h]

/-- C9 counterexample: "toString" is not a key of the weight table, yet the
read `EVENT_WEIGHTS["toString"]` walks the prototype chain and finds the
inherited `Object.prototype.toString` member — non-nullish, so the
`?? DEFAULT_WEIGHT` fallback never applies, and non-numeric, so the
contribution is `NaN` rather than `DEFAULT_WEIGHT * recency`. -/
theorem c9_prototype_counterexample :
    "toString" ∉ EVENT_WEIGHTS.map Prod.fst ∧
    weightTableRead (some "toString") = WeightRead.inherited ∧
    weightTableRead (some "toString") ≠ WeightRead.undef :=
  ⟨by decide, by decide, by decide⟩

/-- C9 amended: for every event name that is neither a key of the weight
table nor an `Object.prototype` property name, the property read yields
`undefined`, the fixed default weight 1 silently applies with no error, and
the event contributes exactly `DEFAULT_WEIGHT * recency` to each extracted
id (ids likewise outside the `Object.prototype` property names, where the
accumulator read `scores[id] || 0` is falsy and accumulation starts at 0). -/
theorem c9_unknown_name_default {R : Type} [LinearOrderedCommRing R]
    (rec : Option ℚ → R) :
    (∀ s : String, s ∉ EVENT_WEIGHTS.map Prod.fst →
      s ∉ objectPrototypeProps →
      weightTableRead (some s) = WeightRead.undef ∧
      eventWeight (some s) = DEFAULT_WEIGHT) ∧
    (∀ (s : String) (ts : ℚ) (id' : String),
      s ∉ EVENT_WEIGHTS.map Prod.fst → s ∉ objectPrototypeProps →
      id' ∉ objectPrototypeProps →
      scoreEventsWith rec [⟨some s, some ts, some [id'], none, none⟩] 1 =
        [(id', (DEFAULT_WEIGHT : R) * rec (some ts))]) := by
  have hw : ∀ s : String, s ∉ EVENT_WEIGHTS.map Prod.fst →
      s ∉ objectPrototypeProps →
      weightTableRead (some s) = WeightRead.undef ∧
      eventWeight (some s) = DEFAULT_WEIGHT := by
    intro s hs hp
    simp [EVENT_WEIGHTS] at hs
    obtain ⟨h1, h2, h3, h4, h5⟩ := hs
    have b1 : (s == "ProductAddToCart") = false := beq_eq_false_iff_ne.mpr h1
    have b2 : (s == "ProductDetailsView") = false := beq_eq_false_iff_ne.mpr h2
    have b3 : (s == "Purchase") = false := beq_eq_false_iff_ne.mpr h3
    have b4 : (s == "MyCustomEvent") = false := beq_eq_false_iff_ne.mpr h4
    have b5 : (s == "MyCustomWishlistEvent") = false := beq_eq_false_iff_ne.mpr h5
    have hlk : EVENT_WEIGHTS.lookup s = none := by
      simp [EVENT_WEIGHTS, List.lookup, b1, b2, b3, b4, b5]
    constructor
    · simp [weightTableRead, hlk, hp]
    · simp [eventWeight, weightTableRead, hlk, hp, DEFAULT_WEIGHT]
  refine ⟨hw, ?_⟩
  intro s ts id' hs hp _
  have hname : ¬ (⟨some s, some ts, some [id'], none, none⟩ : Event).name =
      some "Purchase" := by
    intro hc
    simp at hc
    apply hs
    rw [hc]
    decide
  unfold scoreEventsWith
  have hacc : accumulate rec [⟨some s, some ts, some [id'], none, none⟩] =
      [(id', (eventWeight (some s) : R) * rec (some ts))] := by
    unfold accumulate
    rw [List.foldl_cons, List.foldl_nil]
    unfold applyScore
    rw [if_neg hname]
    rfl
  have hcp : collectPurchased [⟨some s, some ts, some [id'], none, none⟩] =
      [] := by
    unfold collectPurchased
    rw [List.foldl_cons, List.foldl_nil]
    unfold applyPurchase
    rw [if_neg hname]
  rw [hacc, hcp, jsEntries_singleton, (hw s hs hp).2]
  simp [List.filter, sortDesc, sortBy, insertBy, jsSlice]

theorem c9_unknown_name_default_witness :
    weightTableRead (some "SomeOtherEvent") = WeightRead.undef ∧
    eventWeight (some "SomeOtherEvent") = DEFAULT_WEIGHT ∧
    scoreEventsWith (fun _ => (1 : ℤ))
      [⟨some "SomeOtherEvent", some 0, some ["p1"], none, none⟩] 1 =
      [("p1", (DEFAULT_WEIGHT : ℤ) * 1)] :=
  ⟨((c9_unknown_name_default (fun _ : Option ℚ => (1 : ℤ))).1
      "SomeOtherEvent" (by decide) (by decide)).1,
   ((c9_unknown_name_default (fun _ : Option ℚ => (1 : ℤ))).1
      "SomeOtherEvent" (by decide) (by decide)).2,
   (c9_unknown_name_default (fun _ => (1 : ℤ))).2 "SomeOtherEvent" 0 "p1"
      (by decide) (by decide) (by decide)⟩

/-- C10: at the HTTP interface, a `requestedItems` value whose `parseInt`
result is 0 falls back to the default 3 exactly like an absent or
non-numeric parameter (`parseInt(x) || 3` treats both `0` and `NaN` as
falsy), and the limit handed to the scoring engine is never 0. -/
theorem c10_requested_items_default :
    effectiveRequestedItems none = 3 ∧
    (∀ s : String, jsParseInt s = some 0 →
      effectiveRequestedItems (some s) = 3) ∧
    (∀ s : String, jsParseInt s = none →
      effectiveRequestedItems (some s) = 3) ∧
    (∀ raw : Option String, effectiveRequestedItems raw ≠ 0) := by
  refine ⟨rfl, ?_, ?_, ?_⟩
  · intro s h
    simp [effectiveRequestedItems, h]
  · intro s h
    simp [effectiveRequestedItems, h]
  · intro raw
    cases raw with
    | none => decide
    | some s =>
      cases h : jsParseInt s with
      | none => simp [effectiveRequestedItems, h]
      | some n =>
        by_cases hn : n = 0 <;> simp [effectiveRequestedItems, h, hn]

theorem c10_requested_items_default_witness :
    jsParseInt "0" = some 0 ∧ effectiveRequestedItems (some "0") = 3 ∧
    effectiveRequestedItems (some "0") ≠ 0 :=
  ⟨by decide, c10_requested_items_default.2.1 "0" (by decide),
   c10_requested_items_default.2.2.2 (some "0")⟩

theorem scoreEventsWith_nil {R : Type} [LinearOrderedCommRing R]
    (rec : Option ℚ → R) (limit : Int) :
    scoreEventsWith rec [] limit = [] := by
  unfold scoreEventsWith accumulate collectPurchased
  simp [jsEntries, sortDesc, sortBy, jsSlice]

/-- C8 counterexample: the non-object JSON payload `42` parses successfully,
`(42).events` is `undefined`, the events list defaults to empty, the engine
runs, and the handler answers 200, not 400. -/
theorem c8_nonobject_counterexample :
    handleRecommend (fun _ => (1 : ℤ)) (some (JsonVal.num 42)) 3 =
      HandlerOutcome.response 200 "[]" ∧
    handleRecommend (fun _ => (1 : ℤ)) (some (JsonVal.num 42)) 3 ≠
      HandlerOutcome.response 400 "[]" :=
  ⟨by decide, by decide⟩

/-- C8 amended: a request body that is invalid JSON, or whose payload is
JSON `null` (whose `.events` access throws inside the `try`), is answered
`400` with body `[]` without reaching the scoring engine — the last two
conjuncts make the non-invocation explicit: on those inputs the outcome is
independent of the score ring, the recency function and the limit; any
other non-object payload (number, string, boolean, array) is accepted: the
events list defaults to empty, the engine is invoked on it, and the handler
answers `200` with body `[]`. -/
theorem c8_malformed_body {R : Type} [LinearOrderedCommRing R]
    (rec : Option ℚ → R) :
    (∀ limit : Int, handleRecommend rec none limit =
      HandlerOutcome.response 400 "[]") ∧
    (∀ limit : Int, handleRecommend rec (some JsonVal.null) limit =
      HandlerOutcome.response 400 "[]") ∧
    (∀ (limit : Int) (q : ℚ), handleRecommend rec (some (JsonVal.num q)) limit =
      HandlerOutcome.response 200 (renderIds (scoreEventsWith rec [] limit)) ∧
      renderIds (scoreEventsWith rec [] limit) = "[]") ∧
    (∀ (limit : Int) (s : String),
      handleRecommend rec (some (JsonVal.str s)) limit =
        HandlerOutcome.response 200 (renderIds (scoreEventsWith rec [] limit))) ∧
    (∀ (limit : Int) (b : Bool),
      handleRecommend rec (some (JsonVal.bool b)) limit =
        HandlerOutcome.response 200 (renderIds (scoreEventsWith rec [] limit))) ∧
    (∀ (limit : Int) (l : List JsonVal),
      handleRecommend rec (some (JsonVal.arr l)) limit =
        HandlerOutcome.response 200 (renderIds (scoreEventsWith rec [] limit))) ∧
    (∀ (S : Type) (instS : LinearOrderedCommRing S) (rec' : Option ℚ → S)
      (limit limit' : Int),
      handleRecommend rec none limit =
        handleRecommend (R := S) rec' none limit') ∧
    (∀ (S : Type) (instS : LinearOrderedCommRing S) (rec' : Option ℚ → S)
      (limit limit' : Int),
      handleRecommend rec (some JsonVal.null) limit =
        handleRecommend (R := S) rec' (some JsonVal.null) limit') := by
  refine ⟨fun limit => rfl, fun limit => rfl, ?_, ?_, ?_, ?_,
    fun S instS rec' limit limit' => rfl, fun S instS rec' limit limit' => rfl⟩
  · intro limit q
    refine ⟨rfl, ?_⟩
    rw [scoreEventsWith_nil]
    rfl
  · intro limit s
    rfl
  · intro limit b
    rfl
  · intro limit l
    rfl

theorem c8_malformed_body_witness :
    handleRecommend (fun _ => (1 : ℤ)) none 3 =
      HandlerOutcome.response 400 "[]" ∧
    handleRecommend (fun _ => (1 : ℤ)) (some JsonVal.null) 3 =
      HandlerOutcome.response 400 "[]" ∧
    handleRecommend (fun _ => (1 : ℤ)) (some (JsonVal.str "x")) 3 =
      HandlerOutcome.response 200
        (renderIds (scoreEventsWith (fun _ => (1 : ℤ)) [] 3)) :=
  ⟨(c8_malformed_body (fun _ => (1 : ℤ))).1 3,
   (c8_malformed_body (fun _ => (1 : ℤ))).2.1 3,
   (c8_malformed_body (fun _ => (1 : ℤ))).2.2.2.1 3 "x"⟩

/-- C5 counterexample: the ids "2" and "1" (canonical array-index strings)
tie at score 5; the accumulator holds them in first-seen order
("2" before "1"), yet the ranking returns "1" before "2", because
`Object.entries` enumerates integer-like keys in ascending numeric order
before insertion order applies. -/
theorem c5_tie_counterexample :
    [(("2" : String), (5 : ℤ)), ("1", 5)].Sublist
      (accumulate (fun _ => (1 : ℤ)) [viewEvt "2", viewEvt "1"]) ∧
    scoreEventsWith (fun _ => (1 : ℤ)) [viewEvt "2", viewEvt "1"] 3 =
      [("1", 5), ("2", 5)] ∧
    ¬ [(("2" : String), (5 : ℤ)), ("1", 5)].Sublist
      (scoreEventsWith (fun _ => (1 : ℤ)) [viewEvt "2", viewEvt "1"] 3) :=
  ⟨by decide, by decide, by decide⟩

/-- C5 amended: whenever two distinct non-purchased identifiers, neither of
which is a canonical array-index string, end with exactly equal accumulated
scores and the later-seen one appears in the returned ranking, their
relative order in the ranking equals the order in which they were first
inserted into the score accumulator; identifiers that are canonical array
indices below 2 ^ 32 - 1 are instead hoisted by `Object.entries` ahead of
all other keys in ascending numeric order. -/
theorem c5_stable_tie_order {R : Type} [LinearOrderedCommRing R]
    (rec : Option ℚ → R) (events : List Event) (limit : Int)
    (p q : String × R)
    (hfs : [p, q].Sublist (accumulate rec events))
    (hpk : isArrayIndexKey p.1 = false) (hqk : isArrayIndexKey q.1 = false)
    (htie : p.2 = q.2)
    (hpP : p.1 ∉ purchasedIds events)
    (hq : q ∈ scoreEventsWith rec events limit) :
    [p, q].Sublist (scoreEventsWith rec events limit) := by
  have h1 : [p, q].Sublist (jsEntries (accumulate rec events)) :=
    jsEntries_pair_sublist hpk hqk hfs
  unfold scoreEventsWith at hq ⊢
  obtain ⟨k, hk⟩ := jsSlice_eq_take limit
    (sortDesc ((jsEntries (accumulate rec events)).filter
      (fun r => !(collectPurchased events).contains r.1)))
  rw [hk] at hq ⊢
  have hqsort := List.mem_of_mem_take hq
  have hqfil := ((sortBy_perm _ _).mem_iff).mp hqsort
  have hqpred : (fun r : String × R =>
      !(collectPurchased events).contains r.1) q = true :=
    (List.mem_filter.mp hqfil).2
  have hppred : (fun r : String × R =>
      !(collectPurchased events).contains r.1) p = true := by
    have hc : (collectPurchased events).contains p.1 = false := by
      rw [collectPurchased_eq]
      exact contains_eq_false_iff.mpr hpP
    simp only [hc]
    rfl
  have h2 : [p, q].Sublist ((jsEntries (accumulate rec events)).filter
      (fun r => !(collectPurchased events).contains r.1)) :=
    pair_sublist_filter hppred hqpred h1
  have hkeep : (fun x y : String × R => decide (x.2 < y.2)) p q = false := by
    simp only [htie]
    simp [lt_irrefl]
  have h3 : [p, q].Sublist (sortDesc
      ((jsEntries (accumulate rec events)).filter
        (fun r => !(collectPurchased events).contains r.1))) :=
    sortBy_pair_stable _ hkeep h2
  have hnd : (sortDesc ((jsEntries (accumulate rec events)).filter
      (fun r => !(collectPurchased events).contains r.1))).Nodup := by
    have hA : (accumulate rec events).Nodup :=
      (accumulate_fst_nodup rec events).of_map
    have hJ : (jsEntries (accumulate rec events)).Nodup :=
      (jsEntries_perm (accumulate rec events)).symm.nodup hA
    have hF := hJ.filter (fun r : String × R =>
      !(collectPurchased events).contains r.1)
    exact (sortBy_perm _ _).symm.nodup hF
  exact sublist_pair_take hnd h3 hq

theorem c5_stable_tie_order_witness :
    [(("b" : String), (5 : ℤ)), ("a", 5)].Sublist
      (scoreEventsWith (fun _ => (1 : ℤ)) [viewEvt "b", viewEvt "a"] 3) :=
  c5_stable_tie_order (fun _ => (1 : ℤ)) [viewEvt "b", viewEvt "a"] 3
    ("b", 5) ("a", 5) (by decide) (by decide) (by decide) rfl (by decide)
    (by decide)
